import Mathlib

/-!
Shallow embedding of the `gemini` package (a minimal Gemini-protocol server
and client library) and proofs about its protocol engine: the response-body
encoder, the path router, the connection framer's bounded request-line
reader, the client's request writer and body reader, and the URL parser.

Byte streams are modelled as `List Nat` (one `Nat` per byte), strings as
Lean `String` or `List Char` as convenient, and each socket read as one
chunk of a list of chunks; a zero-length read (the peer closing, or EOF)
is an empty chunk or the end of the chunk list.
-/

/- ===================== Response body encoder (GeminiBody) ===================== -/

/-- The `GeminiBody` struct: a single accumulating string buffer. -/
structure GeminiBody where
  buf : String
deriving DecidableEq

/-- Model of `NewBody`: an empty body buffer. -/
def NewBody : GeminiBody := ⟨""⟩

/-- Model of `AddHeader`: `body.buf += fmt.Sprintf("# %s\n\n", str)`. -/
def AddHeader (body : GeminiBody) (str : String) : GeminiBody :=
  ⟨body.buf ++ ("# " ++ str ++ "\n\n")⟩

/-- Model of `AddTextLine`: `body.buf += str + "\n\n"`. -/
def AddTextLine (body : GeminiBody) (str : String) : GeminiBody :=
  ⟨body.buf ++ (str ++ "\n\n")⟩

/-- Model of `AddLinkLine`: `body.buf += fmt.Sprintf("=> %s %s\n\n", url, text)`. -/
def AddLinkLine (body : GeminiBody) (url text : String) : GeminiBody :=
  ⟨body.buf ++ ("=> " ++ url ++ " " ++ text ++ "\n\n")⟩

/-- Model of `AddRaw`: `body.buf += data`. -/
def AddRaw (body : GeminiBody) (data : String) : GeminiBody :=
  ⟨body.buf ++ data⟩

/- ===================== Path router (pathHandler) ===================== -/

/-- Handlers are identified abstractly; the route table `pathTbl` is a Go map
from exact path string to handler, modelled as an association list with
in-place overwrite on key collision. -/
def mapSet : List (String × Nat) → String → Nat → List (String × Nat)
  | [], k, v => [(k, v)]
  | (k', v') :: rest, k, v =>
      if k' = k then (k, v) :: rest else (k', v') :: mapSet rest k v

/-- Go map lookup: the value bound to `k`, if any. -/
def mapGet : List (String × Nat) → String → Option Nat
  | [], _ => none
  | (k', v') :: rest, k => if k' = k then some v' else mapGet rest k

/-- Model of `pathHandler.AddHandler`: `pHndlr.pathTbl[path] = handler`. -/
def AddHandler (tbl : List (String × Nat)) (path : String) (handler : Nat) :
    List (String × Nat) :=
  mapSet tbl path handler

/-- Model of `sendHeader`: the bytes of `fmt.Sprintf("%d %s\r\n", status, meta)`. -/
def sendHeader (status : Nat) (meta : String) : String :=
  toString status ++ " " ++ meta ++ "\r\n"

/-- The constant `StatusTemporaryFailure = 40`. -/
def StatusTemporaryFailure : Nat := 40

/-- Model of `SendError`: one temporary-failure status line with the given meta. -/
def SendError (meta : String) : String :=
  sendHeader StatusTemporaryFailure meta

/-- Observable effect of one dispatch: the status lines the framer itself
wrote and the handlers that were invoked, in order. -/
structure DispatchTrace where
  written : List String
  invoked : List Nat
deriving DecidableEq

/-- Model of `pathHandler.HandlePeer`: look the parsed path up in the table; on a hit
invoke that handler, otherwise send the not-found error line. -/
def HandlePeer (tbl : List (String × Nat)) (path : String) : DispatchTrace :=
  match mapGet tbl path with
  | some hndlr => ⟨[], [hndlr]⟩
  | none => ⟨[SendError ("Path '" ++ path ++ "' not found!")], []⟩

/- ===================== GeminiPeer.GetParam ===================== -/

/-- Model of `GetParam`: `return peer.param, strings.Compare(peer.param, "") != 0`,
over the stored decoded parameter (modelled as `List Char`, matching the
URL-parser model below). -/
def GetParam (param : List Char) : List Char × Bool :=
  (param, param != [])

/- ===================== Client request line (NewRequest) ===================== -/

/-- The sequence of `req.Write` calls `NewRequest` performs for the request
line: `fmt.Sprintf("%s%s%s", uri, hostname, path)`, then `"?" + param` only
when `param` is non-empty, then the `"\r\n"` terminator. -/
def newRequestWrites (uri hostname path param : String) : List String :=
  [uri ++ hostname ++ path]
    ++ (if param.length > 0 then ["?" ++ param] else [])
    ++ ["\r\n"]

/-- All bytes the request line writes put on the wire, in order. -/
def requestLineBytes (uri hostname path param : String) : String :=
  String.join (newRequestWrites uri hostname path param)

/- ===================== Server request reader (readRequest) ===================== -/

/-- Outcome of the Reading state of the connection framer. -/
inductive ReadResult where
  /-- The loop finished and `peer.rawURL = string(buf[:length-2])` was stored. -/
  | success (rawURL : List Nat)
  /-- The `panic("malformed gemini request!")` case: a zero-length read before the loop ended. -/
  | malformed
  /-- The chunk stream is exhausted while the loop still wants more bytes:
  the blocking `Read` never returns. -/
  | blocked
deriving DecidableEq

/-- Do the last two buffered bytes equal `'\r'` (13) then `'\n'` (10)? -/
def endsCRLF (l : List Nat) : Bool :=
  match l.reverse with
  | 10 :: 13 :: _ => true
  | _ => false

/-- The loop of `GeminiPeer.readRequest` over the remaining chunks and the
accumulated buffer: while fewer than 1026 bytes are buffered, read (a read
delivers at most the remaining capacity `1026 - length`; a zero-length read
panics), then break as soon as more than 2 bytes are buffered and the last
two are CR LF; on exit the raw URL is the buffer minus its last two bytes. -/
def readRequestGo : List (List Nat) → List Nat → ReadResult
  | [], buf =>
      if buf.length < 1026 then .blocked
      else .success (buf.take (buf.length - 2))
  | c :: cs, buf =>
      if buf.length < 1026 then
        let data := c.take (1026 - buf.length)
        if data.length = 0 then .malformed
        else
          let buf2 := buf ++ data
          if 2 < buf2.length && endsCRLF buf2 then
            .success (buf2.take (buf2.length - 2))
          else
            readRequestGo cs buf2
      else .success (buf.take (buf.length - 2))

/-- Model of `GeminiPeer.readRequest` run on a stream of read chunks, starting from an
empty buffer; on success it yields the stored `peer.rawURL` bytes. -/
def readRequest (chunks : List (List Nat)) : ReadResult :=
  readRequestGo chunks []

/- ===================== Client body reader (readBody) ===================== -/

/-- The loop of `GeminiRequest.readBody`: `buf` is the persistent 1028-byte
read buffer (a read of `sz` bytes overwrites only `buf[0:sz]`), and after
every read — including the final zero-length one — the code appends
`string(buf[0:])`, i.e. the whole 1028-byte buffer, to `responseBody`. -/
def readBodyGo : List (List Nat) → List Nat → List Nat → List Nat
  | [], buf, acc => acc ++ buf
  | c :: cs, buf, acc =>
      let data := c.take 1028
      if data.length = 0 then acc ++ buf
      else
        let buf2 := data ++ buf.drop data.length
        readBodyGo cs buf2 (acc ++ buf2)

/-- Model of `GeminiRequest.readBody` on a stream of read chunks: the buffer starts
zero-filled and `responseBody` empty; the stream's end is the zero-length
read (EOF is ignored by `GeminiRequest.Read`, which then returns 0). -/
def readBody (chunks : List (List Nat)) : List Nat :=
  readBodyGo chunks (List.replicate 1028 0) []

/-- What the spec says `readBody` should produce: exactly the bytes received
before the peer closed, i.e. the concatenation of the chunks. -/
def specBodyBytes (chunks : List (List Nat)) : List Nat :=
  chunks.flatten

/- ===================== URL parser (ParseURL) ===================== -/

/-- Model of `strings.Index(s, pat)`: index of the first occurrence of `pat` in `s`,
`none` when absent (Go returns -1). -/
def strIndex : List Char → List Char → Option Nat
  | [], pat => if pat.isEmpty then some 0 else none
  | s@(_ :: rest), pat =>
      if pat.isPrefixOf s then some 0
      else (strIndex rest pat).map (· + 1)

/-- Go's `ishex`. -/
def isHexDigit (c : Char) : Bool :=
  ('0' ≤ c && c ≤ '9') || ('a' ≤ c && c ≤ 'f') || ('A' ≤ c && c ≤ 'F')

/-- Go's `unhex`: the value of a hex digit. -/
def hexVal (c : Char) : Nat :=
  if '0' ≤ c && c ≤ '9' then c.toNat - '0'.toNat
  else if 'a' ≤ c && c ≤ 'f' then c.toNat - 'a'.toNat + 10
  else c.toNat - 'A'.toNat + 10

/-- Go's `url.unescape` restricted to the two modes this code uses: decode
`%XX` escapes (failing on an invalid or truncated escape), and turn `'+'`
into a space only in query mode (`plusToSpace = true`). -/
def unescape (plusToSpace : Bool) : List Char → Option (List Char)
  | [] => some []
  | c :: rest =>
      if c = '%' then
        match rest with
        | a :: b :: rest2 =>
            if isHexDigit a && isHexDigit b then
              (unescape plusToSpace rest2).map
                (fun r => Char.ofNat (16 * hexVal a + hexVal b) :: r)
            else none
        | _ => none
      else
        (unescape plusToSpace rest).map
          (fun r => (if plusToSpace && c == '+' then ' ' else c) :: r)

/-- Model of `url.QueryUnescape`. -/
def QueryUnescape (s : List Char) : Option (List Char) := unescape true s

/-- Model of `url.PathUnescape`. -/
def PathUnescape (s : List Char) : Option (List Char) := unescape false s

/-- The four results of `ParseURL`. -/
structure URLParts where
  uri : List Char
  hostname : List Char
  path : List Char
  param : List Char
deriving DecidableEq

/-- Model of `ParseURL`: split on the first `"://"` (defaulting the scheme to
`"gemini://"`), split the remainder on its first `'/'` into hostname and
path (path defaulting to `"/"`), then, when the original raw string contains
`'?'`, query-unescape what follows the first `'?'` into `param` and
path-unescape the whole raw prefix before it into `path`; a decode failure
panics (`none`), discarding everything. -/
def ParseURL (rawUrl : List Char) : Option URLParts :=
  let su :=
    match strIndex rawUrl [':', '/', '/'] with
    | some i => (rawUrl.take (i + 3), rawUrl.drop (i + 3))
    | none => ("gemini://".toList, rawUrl)
  let hp :=
    match strIndex su.2 ['/'] with
    | some i => (su.2.take i, su.2.drop i)
    | none => (su.2, ['/'])
  match strIndex rawUrl ['?'] with
  | some i =>
      match QueryUnescape (rawUrl.drop (i + 1)), PathUnescape (rawUrl.take i) with
      | some tparam, some tpath => some ⟨su.1, hp.1, tpath, tparam⟩
      | _, _ => none
  | none => some ⟨su.1, hp.1, hp.2, []⟩

/-- The `encode` operation as the spec describes it: reconstruct
`scheme + host + path`, with `"?" + query` appended when the query is
non-empty. Modelled from the spec's round-trip property, not from the code. -/
def encodeTarget (scheme host path query : List Char) : List Char :=
  scheme ++ host ++ path ++ (if query = [] then [] else '?' :: query)

/- ===================== Small string helper ===================== -/

theorem string_empty_append (s : String) : "" ++ s = s := by
  apply congrArg String.mk
  simp [String.append]

/- ===================== C8: body encoder ===================== -/

/-- C8: each `GeminiBody` operation appends exactly its specified bytes to
the prior buffer and is total (never fails); `AddHeader "Hi"` on the empty
body yields exactly `"# Hi\n\n"`. -/
theorem geminiBody_ops_append :
    (∀ b s, (AddHeader b s).buf = b.buf ++ ("# " ++ s ++ "\n\n")) ∧
    (∀ b s, (AddTextLine b s).buf = b.buf ++ (s ++ "\n\n")) ∧
    (∀ b u t, (AddLinkLine b u t).buf = b.buf ++ ("=> " ++ u ++ " " ++ t ++ "\n\n")) ∧
    (∀ b d, (AddRaw b d).buf = b.buf ++ d) ∧
    (AddHeader NewBody "Hi").buf = "# Hi\n\n" :=
  ⟨fun _ _ => rfl, fun _ _ => rfl, fun _ _ _ => rfl, fun _ _ => rfl, by decide⟩

/- ===================== C7: client request line ===================== -/

/-- C7: the bytes `NewRequest` writes as the request line are exactly
`uri ++ hostname ++ path`, then `"?" ++ param` iff `param` is non-empty,
then the CR LF terminator. -/
theorem newRequest_requestLine (uri hostname path param : String) :
    requestLineBytes uri hostname path param =
      uri ++ hostname ++ path ++ (if param = "" then "" else "?" ++ param) ++ "\r\n" := by
  by_cases h : param = ""
  · subst h
    simp only [requestLineBytes, newRequestWrites, String.length, if_neg]
    simp [String.join, string_empty_append]
  · have hlen : param.length > 0 := by
      cases hp : param.length with
      | zero => exact absurd (String.ext (List.length_eq_zero.mp hp)) h
      | succ n => omega
    simp only [requestLineBytes, newRequestWrites, if_pos hlen, if_neg h]
    simp [String.join, string_empty_append, String.append_assoc]

/- ===================== C9: route registration ===================== -/

/-- C9: `AddHandler` binds exactly the given path (last registration wins)
and leaves the handler bound to every other path unchanged. -/
theorem addHandler_overwrites (tbl : List (String × Nat)) (path : String) (handler : Nat) :
    mapGet (AddHandler tbl path handler) path = some handler ∧
    ∀ q, q ≠ path → mapGet (AddHandler tbl path handler) q = mapGet tbl q := by
  unfold AddHandler
  induction tbl with
  | nil =>
      refine ⟨by simp [mapSet, mapGet], fun q hq => ?_⟩
      simp [mapSet, mapGet, Ne.symm hq]
  | cons kv rest ih =>
      obtain ⟨k', v'⟩ := kv
      by_cases hk : k' = path
      · subst hk
        refine ⟨by simp [mapSet, mapGet], fun q hq => ?_⟩
        simp [mapSet, mapGet, Ne.symm hq]
      · refine ⟨?_, fun q hq => ?_⟩
        · simp [mapSet, mapGet, hk, ih.1]
        · by_cases hq' : k' = q
          · subst hq'
            simp [mapSet, mapGet, hk]
          · simp [mapSet, mapGet, hk, hq', ih.2 q hq]

/-- Witness for C9 at a concrete table. -/
theorem addHandler_overwrites_witness :
    mapGet (AddHandler [("/", 0)] "/" 1) "/" = some 1 ∧
    ("/hi" ≠ "/" ∧ mapGet (AddHandler [("/", 0)] "/" 1) "/hi" = mapGet [("/", 0)] "/hi") :=
  ⟨(addHandler_overwrites [("/", 0)] "/" 1).1,
   by decide,
   (addHandler_overwrites [("/", 0)] "/" 1).2 "/hi" (by decide)⟩

/- ===================== C10: GetParam ===================== -/

/-- C10: `GetParam` reports `present = false` iff the stored decoded
parameter is empty; consequently a raw target ending in `'?'` (query
decoding to the empty string) is indistinguishable from one with no query
at all. -/
theorem getParam_empty_iff :
    (∀ p : List Char, (GetParam p).2 = false ↔ p = []) ∧
    (ParseURL "gemini://localhost/x?".toList).map (fun parts => GetParam parts.param) =
      (ParseURL "gemini://localhost/x".toList).map (fun parts => GetParam parts.param) := by
  constructor
  · intro p
    simp [GetParam]
  · rfl

/- ===================== C5: dispatch ===================== -/

/-- C5: dispatching an unregistered path sends exactly one temporary-failure
(status 40) status line whose meta embeds the path, with no body and no
handler invocation; dispatching a registered path invokes exactly that
handler exactly once with nothing written by the framer; matching is the
exact-equality map lookup. -/
theorem handlePeer_dispatch (tbl : List (String × Nat)) (path : String) :
    (mapGet tbl path = none →
      HandlePeer tbl path =
        ⟨[sendHeader 40 ("Path '" ++ path ++ "' not found!")], []⟩) ∧
    (∀ h, mapGet tbl path = some h → HandlePeer tbl path = ⟨[], [h]⟩) := by
  constructor
  · intro hnone
    simp [HandlePeer, hnone, SendError, StatusTemporaryFailure]
  · intro h hsome
    simp [HandlePeer, hsome]

/-- Witness for C5: one unmatched and one matched dispatch. -/
theorem handlePeer_dispatch_witness :
    HandlePeer [("/hi", 7)] "/nope" =
      ⟨[sendHeader 40 "Path '/nope' not found!"], []⟩ ∧
    HandlePeer [("/hi", 7)] "/hi" = ⟨[], [7]⟩ :=
  ⟨((handlePeer_dispatch [("/hi", 7)] "/nope").1 (by decide)).trans (by decide),
   (handlePeer_dispatch [("/hi", 7)] "/hi").2 7 (by decide)⟩

/- ===================== C2: readBody is not the received bytes ===================== -/

/-- C2: the code appends `string(buf[0:])` — the entire 1028-byte buffer —
after every read, including the final zero-length one, so after receiving
exactly the two bytes 104 105 before close, `responseBody` holds 2056 bytes,
not those two bytes: the stored body is not the concatenation of the bytes
received. -/
theorem take_1028_pair : List.take 1028 [104, 105] = ([104, 105] : List Nat) := by
  decide

theorem readBody_two_byte_stream : readBody [[104, 105]] =
    ([104, 105] ++ List.replicate 1026 0) ++ ([104, 105] ++ List.replicate 1026 0) := by
  show readBodyGo [[104, 105]] (List.replicate 1028 0) [] = _
  simp only [readBodyGo, take_1028_pair]
  norm_num

/-- C2: the code appends `string(buf[0:])` — the entire 1028-byte buffer —
after every read, including the final zero-length one, so after receiving
exactly the two bytes 104 105 before close, `responseBody` holds 2056 bytes
(the two bytes plus 1026 zero bytes, twice), not those two bytes: the stored
body is not the concatenation of the bytes received before close. -/
theorem readBody_appends_whole_buffer :
    readBody [[104, 105]] ≠ specBodyBytes [[104, 105]] ∧
    (readBody [[104, 105]]).length = 2056 ∧
    specBodyBytes [[104, 105]] = [104, 105] := by
  have hspec : specBodyBytes [[104, 105]] = [104, 105] := by decide
  have hlen : (readBody [[104, 105]]).length = 2056 := by
    rw [readBody_two_byte_stream]
    simp only [List.length_append, List.length_replicate, List.length_cons,
      List.length_nil]
  refine ⟨?_, hlen, hspec⟩
  intro h
  have := congrArg List.length h
  rw [hlen, hspec] at this
  simp at this

/- ===================== Request reader machinery (C1, C6) ===================== -/

/-- A list contains the adjacent byte pair 13 10 (CR LF). -/
def hasCRLFPair : List Nat → Bool
  | [] => false
  | [_] => false
  | a :: b :: rest => (a == 13 && b == 10) || hasCRLFPair (b :: rest)

theorem endsCRLF_eq_true_iff (l : List Nat) :
    endsCRLF l = true ↔ ∃ q, l = q ++ [13, 10] := by
  constructor
  · intro h
    unfold endsCRLF at h
    split at h
    · rename_i t heq
      refine ⟨t.reverse, ?_⟩
      have := congrArg List.reverse heq
      simpa using this
    · exact absurd h (by simp)
  · rintro ⟨q, rfl⟩
    unfold endsCRLF
    simp [List.reverse_append]

theorem hasCRLFPair_append_pair (p q : List Nat) :
    hasCRLFPair (p ++ 13 :: 10 :: q) = true := by
  induction p with
  | nil => simp [hasCRLFPair]
  | cons a p ih =>
    cases p with
    | nil => simp [hasCRLFPair]
    | cons b p' => simpa [hasCRLFPair] using Or.inr ih

theorem hasCRLFPair_of_endsCRLF_extends {P T : List Nat}
    (h : endsCRLF P = true) (hpre : ∃ r, P ++ r = T) :
    hasCRLFPair T = true := by
  obtain ⟨q, rfl⟩ := (endsCRLF_eq_true_iff P).1 h
  obtain ⟨r, rfl⟩ := hpre
  simpa [List.append_assoc] using hasCRLFPair_append_pair q r

theorem hasCRLFPair_of_concat13 (l : List Nat)
    (h : hasCRLFPair (l ++ [13]) = true) : hasCRLFPair l = true := by
  induction l with
  | nil => simp [hasCRLFPair] at h
  | cons a l ih =>
    cases l with
    | nil => simp [hasCRLFPair] at h
    | cons b l' =>
      rw [List.cons_append, List.cons_append] at h
      rw [hasCRLFPair] at h ⊢
      rcases Bool.or_eq_true_iff.mp h with h1 | h2
      · simp [h1]
      · simp [ih (by simpa using h2)]

theorem readRequestGo_full (cs : List (List Nat)) (buf : List Nat)
    (h : ¬ buf.length < 1026) :
    readRequestGo cs buf = .success (buf.take (buf.length - 2)) := by
  cases cs <;> simp [readRequestGo, h]
theorem readRequestGo_overflow_aux (X : List Nat)
    (hX : hasCRLFPair (X.take 1026) = false) :
    ∀ (cs : List (List Nat)) (buf : List Nat),
      (∀ c ∈ cs, c ≠ []) →
      buf ++ cs.flatten = X →
      buf.length ≤ 1026 →
      1026 ≤ X.length →
      readRequestGo cs buf = .success (X.take 1024) := by
  intro cs
  induction cs with
  | nil =>
      intro buf _ hflat hle hlen
      simp only [List.flatten_nil, List.append_nil] at hflat
      subst hflat
      have hbl : buf.length = 1026 := le_antisymm hle hlen
      rw [readRequestGo_full _ _ (by omega), hbl]
  | cons c cs ih =>
      intro buf hcs hflat hle hlen
      have hc : c ≠ [] := hcs c (List.mem_cons_self _ _)
      have hc0 : 0 < c.length := List.length_pos.mpr hc
      by_cases hfull : buf.length < 1026
      · have hXeq : X = buf ++ (c ++ cs.flatten) := by
          rw [← hflat]; simp [List.append_assoc]
        rcases Nat.lt_or_ge (buf.length + c.length) 1026 with hsmall | hbig
        · -- chunk fits with room to spare: no truncation
          have hdata : c.take (1026 - buf.length) = c :=
            List.take_of_length_le (by omega)
          have hm : buf ++ c = X.take ((buf ++ c).length) := by
            rw [hXeq, List.length_append, List.take_append_eq_append_take,
                List.take_of_length_le (by omega), Nat.add_sub_cancel_left,
                List.take_left]
          have hbreak : (decide (2 < (buf ++ c).length) && endsCRLF (buf ++ c)) = false := by
            cases he : endsCRLF (buf ++ c)
            · simp
            · exfalso
              have hpref : ∃ r, (buf ++ c) ++ r = X.take 1026 := by
                refine ⟨(X.drop ((buf ++ c).length)).take (1026 - (buf ++ c).length), ?_⟩
                have h1026 : 1026 = (buf ++ c).length + (1026 - (buf ++ c).length) := by
                  simp only [List.length_append]; omega
                conv_rhs => rw [h1026, List.take_add]
                rw [← hm]
              have hcontra := hasCRLFPair_of_endsCRLF_extends he hpref
              rw [hX] at hcontra
              exact Bool.false_ne_true hcontra
          simp only [readRequestGo]
          rw [if_pos hfull, hdata]
          rw [if_neg (by simp [List.length_eq_zero, hc]), if_neg (by rw [hbreak]; simp)]
          exact ih (buf ++ c)
            (fun c' hc' => hcs c' (List.mem_cons_of_mem _ hc'))
            (by rw [hXeq]; simp [List.append_assoc])
            (by simp only [List.length_append]; omega) hlen
        · -- this read fills the buffer to exactly 1026 bytes
          have hklen : (c.take (1026 - buf.length)).length = 1026 - buf.length := by
            rw [List.length_take]; omega
          have hbuf2 : buf ++ c.take (1026 - buf.length) = X.take 1026 := by
            rw [hXeq, List.take_append_eq_append_take,
                List.take_of_length_le hle,
                List.take_append_of_le_length (by omega)]
          have hbuf2len : (buf ++ c.take (1026 - buf.length)).length = 1026 := by
            rw [List.length_append, hklen]; omega
          have hbreak : (decide (2 < (buf ++ c.take (1026 - buf.length)).length)
              && endsCRLF (buf ++ c.take (1026 - buf.length))) = false := by
            cases he : endsCRLF (buf ++ c.take (1026 - buf.length))
            · simp
            · exfalso
              have hpref : ∃ r, (buf ++ c.take (1026 - buf.length)) ++ r = X.take 1026 :=
                ⟨[], by rw [List.append_nil, hbuf2]⟩
              have hcontra := hasCRLFPair_of_endsCRLF_extends he hpref
              rw [hX] at hcontra
              exact Bool.false_ne_true hcontra
          simp only [readRequestGo]
          rw [if_pos hfull]
          rw [if_neg (by rw [hklen]; omega), if_neg (by rw [hbreak]; simp)]
          rw [readRequestGo_full _ _ (by omega), hbuf2len, hbuf2, List.take_take]
          norm_num
      · -- buffer already full before this read
        rw [readRequestGo_full _ _ hfull]
        have hbl : buf.length = 1026 := by omega
        have hXbuf : X.take 1024 = buf.take 1024 := by
          rw [← hflat, List.flatten_cons, ← List.append_assoc,
              List.take_append_of_le_length (by simp only [List.length_append]; omega)]
          rw [List.take_append_of_le_length (by omega)]
        rw [hXbuf, hbl]
theorem hasCRLFPair_replicate97 : ∀ n, hasCRLFPair (List.replicate n 97) = false := by
  intro n
  induction n with
  | zero => rfl
  | succ m ih =>
    cases m with
    | zero => rfl
    | succ k =>
      rw [List.replicate_succ, List.replicate_succ, hasCRLFPair, ← List.replicate_succ]
      simp [ih]

theorem readRequestGo_terminator_aux (body : List Nat) (hne : body ≠ [])
    (hpair : hasCRLFPair body = false) (hblen : body.length ≤ 1021) :
    ∀ (cs : List (List Nat)) (buf : List Nat),
      (∀ c ∈ cs, c ≠ []) →
      buf ++ cs.flatten = body ++ [13, 10] →
      buf.length < body.length + 2 →
      readRequestGo cs buf = .success body := by
  have hb0 : 0 < body.length := List.length_pos.mpr hne
  intro cs
  induction cs with
  | nil =>
      intro buf _ hflat hlen
      exfalso
      simp only [List.flatten_nil, List.append_nil] at hflat
      have := congrArg List.length hflat
      simp [List.length_append] at this
      omega
  | cons c cs ih =>
      intro buf hcs hflat hlen
      have hc : c ≠ [] := hcs c (List.mem_cons_self _ _)
      have hc0 : 0 < c.length := List.length_pos.mpr hc
      have hfull : buf.length < 1026 := by omega
      have hUlen : (body ++ [13, 10]).length = body.length + 2 := by simp
      have hXeq : body ++ [13, 10] = buf ++ (c ++ cs.flatten) := by
        rw [← hflat]; simp [List.append_assoc]
      have hclen : buf.length + c.length ≤ body.length + 2 := by
        have h := congrArg List.length hXeq
        simp only [List.length_append, List.length_cons, List.length_nil] at h
        omega
      have hdata : c.take (1026 - buf.length) = c :=
        List.take_of_length_le (by omega)
      have hm : buf ++ c = (body ++ [13, 10]).take ((buf ++ c).length) := by
        rw [hXeq, List.length_append, List.take_append_eq_append_take,
            List.take_of_length_le (by omega), Nat.add_sub_cancel_left,
            List.take_left]
      rcases Nat.lt_or_ge (buf.length + c.length) (body.length + 2) with hproper | hend
      · -- proper prefix of the input: the terminator check cannot fire yet
        have hbreak : (decide (2 < (buf ++ c).length) && endsCRLF (buf ++ c)) = false := by
          cases he : endsCRLF (buf ++ c)
          · simp
          · exfalso
            obtain ⟨m, hmdef⟩ : ∃ m, (buf ++ c).length = m := ⟨_, rfl⟩
            rw [hmdef] at hm
            have hmle : m ≤ body.length + 1 := by
              rw [← hmdef]
              simp only [List.length_append]
              omega
            have hm2 : buf ++ c = (body ++ [13]).take m := by
              rw [hm, show body ++ [13, 10] = (body ++ [13]) ++ [10] by simp,
                  List.take_append_of_le_length (by simp; omega)]
            have hpre13 : ∃ r, (buf ++ c) ++ r = body ++ [13] := by
              refine ⟨(body ++ [13]).drop m, ?_⟩
              rw [hm2]
              exact List.take_append_drop _ _
            have hcontra := hasCRLFPair_of_endsCRLF_extends he hpre13
            have hbodytrue := hasCRLFPair_of_concat13 _ hcontra
            rw [hpair] at hbodytrue
            exact Bool.false_ne_true hbodytrue
        simp only [readRequestGo]
        rw [if_pos hfull, hdata]
        rw [if_neg (by simp [List.length_eq_zero, hc]), if_neg (by rw [hbreak]; simp)]
        exact ih (buf ++ c)
          (fun c' hc' => hcs c' (List.mem_cons_of_mem _ hc'))
          (by rw [hXeq]; simp [List.append_assoc])
          (by simp only [List.length_append]; omega)
      · -- this chunk completes the input: the buffer now ends with CR LF
        have hculen : buf.length + c.length = body.length + 2 :=
          le_antisymm hclen hend
        have hbuf2U : buf ++ c = body ++ [13, 10] := by
          rw [hm]
          rw [List.take_of_length_le
            (by simp only [List.length_append]; simp; omega)]
        have hcond : (decide (2 < (buf ++ c).length) && endsCRLF (buf ++ c)) = true := by
          rw [hbuf2U, Bool.and_eq_true]
          refine ⟨?_, ?_⟩
          · simp only [decide_eq_true_eq, hUlen]
            omega
          · exact (endsCRLF_eq_true_iff _).2 ⟨body, rfl⟩
        simp only [readRequestGo]
        rw [if_pos hfull, hdata]
        rw [if_neg (by simp [List.length_eq_zero, hc]), if_pos hcond]
        rw [hbuf2U, hUlen, Nat.add_sub_cancel, List.take_left]
/-- C1 (amended): when the delivered stream reaches the 1026-byte bound with
no CR LF pair appearing in the first 1026 bytes at any point, `readRequest`
does not raise any error: the loop exits because the buffer is full and the
connection proceeds with the first 1024 delivered bytes stored as the raw
URL (silent truncation, not a `FramingError`). -/
theorem readRequest_overflow_truncates (chunks : List (List Nat))
    (hchunks : ∀ c ∈ chunks, c ≠ [])
    (htotal : 1026 ≤ chunks.flatten.length)
    (hpair : hasCRLFPair (chunks.flatten.take 1026) = false) :
    readRequest chunks = ReadResult.success (chunks.flatten.take 1024) :=
  readRequestGo_overflow_aux chunks.flatten hpair chunks [] hchunks
    (by simp) (by simp) htotal

theorem readRequest_overflow_truncates_witness :
    readRequest [List.replicate 1026 97] =
      ReadResult.success (([List.replicate 1026 97] : List (List Nat)).flatten.take 1024) :=
  readRequest_overflow_truncates [List.replicate 1026 97]
    (by
      intro c hc
      rw [List.mem_singleton] at hc
      subst hc
      simp only [ne_eq, List.replicate_eq_nil_iff]
      norm_num)
    (by
      simp only [List.flatten_cons, List.flatten_nil, List.append_nil,
        List.length_replicate]
      norm_num)
    (by
      simp only [List.flatten_cons, List.flatten_nil, List.append_nil,
        List.take_replicate, Nat.min_self]
      exact hasCRLFPair_replicate97 1026)

/-- C1 counterexample: a stream delivering 1026 bytes (all `'a'`) with no
CR/LF anywhere makes `readRequest` complete successfully with a 1024-byte
request target, instead of raising a framing error as the claim states. -/
theorem readRequest_overlong_completes_counterexample :
    readRequest [List.replicate 1026 97] = ReadResult.success (List.replicate 1024 97) ∧
    readRequest [List.replicate 1026 97] ≠ ReadResult.malformed := by
  have h := readRequestGo_overflow_aux (List.replicate 1026 97)
      (by
        rw [List.take_replicate]
        simp only [Nat.min_self]
        exact hasCRLFPair_replicate97 1026)
      [List.replicate 1026 97] []
      (by
        intro c hc
        rw [List.mem_singleton] at hc
        subst hc
        simp only [ne_eq, List.replicate_eq_nil_iff]
        norm_num)
      (by simp only [List.nil_append, List.flatten_cons, List.flatten_nil,
            List.append_nil])
      (by simp only [List.length_nil]; omega)
      (by simp only [List.length_replicate]; norm_num)
  constructor
  · show readRequestGo [List.replicate 1026 97] [] = _
    rw [h, List.take_replicate]
    norm_num
  · show readRequestGo [List.replicate 1026 97] [] ≠ _
    rw [h]
    exact fun hcon => nomatch hcon

/-- C6 (amended): for every input that consists of at least one byte
followed by the CR LF terminator, contains no other CR LF pair, and is
shorter than 1024 bytes, delivered in non-empty chunks, the Reading state
terminates successfully with the raw URL equal to the input minus its
trailing two-byte terminator. (The claim's unrestricted form fails: the
two-byte input consisting of the bare terminator is never accepted, because
the termination test requires strictly more than two buffered bytes.) -/
theorem readRequest_terminated_success (body : List Nat) (chunks : List (List Nat))
    (hne : body ≠ []) (hpair : hasCRLFPair body = false)
    (hblen : body.length ≤ 1021)
    (hchunks : ∀ c ∈ chunks, c ≠ [])
    (hdeliver : chunks.flatten = body ++ [13, 10]) :
    readRequest chunks = ReadResult.success body :=
  readRequestGo_terminator_aux body hne hpair hblen chunks []
    hchunks (by simpa using hdeliver) (by simp)

theorem readRequest_terminated_success_witness :
    readRequest [[103, 13, 10]] = ReadResult.success [103] :=
  readRequest_terminated_success [103] [[103, 13, 10]]
    (by decide) (by decide) (by decide) (by decide) (by decide)

/-- C6 counterexample: the 2-byte input consisting of just the CR LF
terminator ends in the terminator, yet the Reading state does not terminate
successfully with an empty raw URL — the `length > 2` guard never fires and
the loop keeps waiting for more data. -/
theorem readRequest_bare_terminator_counterexample :
    readRequest [[13, 10]] = ReadResult.blocked ∧
    readRequest [[13, 10]] ≠ ReadResult.success [] := by
  constructor <;> decide

/- ===================== URL parser lemmas (C3, C4) ===================== -/

theorem strIndex_append_head (r : List Char) (c : Char) (pat' : List Char)
    (hpre : (c :: pat').isPrefixOf r = true) :
    ∀ s : List Char, c ∉ s → strIndex (s ++ r) (c :: pat') = some s.length := by
  intro s
  induction s with
  | nil =>
      intro _
      cases r with
      | nil => simp [List.isPrefixOf] at hpre
      | cons x rs =>
          simp only [List.nil_append, strIndex, if_pos hpre, List.length_nil]
  | cons a s' ih =>
      intro hc
      have hca : (c == a) = false := by
        have : c ≠ a := fun h => hc (h ▸ List.mem_cons_self _ _)
        simp [this]
      simp only [List.cons_append, strIndex, List.append_eq]
      rw [if_neg (by simp [List.isPrefixOf, hca])]
      rw [ih (fun m => hc (List.mem_cons_of_mem _ m))]
      rfl

theorem strIndex_single_notin (c : Char) :
    ∀ l : List Char, c ∉ l → strIndex l [c] = none := by
  intro l
  induction l with
  | nil => intro _; rfl
  | cons a l' ih =>
      intro hc
      have hca : (c == a) = false := by
        have : c ≠ a := fun h => hc (h ▸ List.mem_cons_self _ _)
        simp [this]
      simp only [strIndex]
      rw [if_neg (by simp [List.isPrefixOf, hca])]
      rw [ih (fun m => hc (List.mem_cons_of_mem _ m))]
      rfl

theorem unescape_cons_ne (b : Bool) (c : Char) (rest : List Char) (hc : ¬ c = '%') :
    unescape b (c :: rest) =
      (unescape b rest).map (fun r => (if b && c == '+' then ' ' else c) :: r) := by
  rw [unescape.eq_def]
  simp [hc]

theorem pathUnescape_id (l : List Char) (h : '%' ∉ l) : PathUnescape l = some l := by
  unfold PathUnescape
  induction l with
  | nil => rfl
  | cons c rest ih =>
      have hc : ¬(c = '%') := fun e => h (e ▸ List.mem_cons_self _ _)
      rw [unescape_cons_ne _ _ _ hc, ih (fun m => h (List.mem_cons_of_mem _ m))]
      simp

theorem queryUnescape_id (l : List Char) (h1 : '%' ∉ l) (h2 : '+' ∉ l) :
    QueryUnescape l = some l := by
  unfold QueryUnescape
  induction l with
  | nil => rfl
  | cons c rest ih =>
      have hc : ¬(c = '%') := fun e => h1 (e ▸ List.mem_cons_self _ _)
      have hplus : (c == '+') = false := by
        have : c ≠ '+' := fun e => h2 (e ▸ List.mem_cons_self _ _)
        simp [this]
      rw [unescape_cons_ne _ _ _ hc,
          ih (fun m => h1 (List.mem_cons_of_mem _ m)) (fun m => h2 (List.mem_cons_of_mem _ m))]
      simp [hplus]

/-- C3: when the raw request target contains `'?'` (first occurrence at
index `i`), `ParseURL` returns `param` equal to the query-unescaped
substring after the `'?'` and `path` equal to the path-unescaped substring
before the `'?'` (overriding the host/path split), and a decode failure on
either segment makes `ParseURL` fail outright, discarding all partial
results. -/
theorem parseURL_query_split (rawUrl : List Char) (i : Nat)
    (hq : strIndex rawUrl ['?'] = some i) :
    (∀ tparam tpath,
        QueryUnescape (rawUrl.drop (i + 1)) = some tparam →
        PathUnescape (rawUrl.take i) = some tpath →
        ∃ uri hostname, ParseURL rawUrl = some ⟨uri, hostname, tpath, tparam⟩) ∧
    ((QueryUnescape (rawUrl.drop (i + 1)) = none ∨
      PathUnescape (rawUrl.take i) = none) →
      ParseURL rawUrl = none) := by
  constructor
  · intro tparam tpath hqu hpu
    exact ⟨_, _, by simp only [ParseURL, hq, hqu, hpu]; rfl⟩
  · intro hfail
    rcases hfail with hf | hf
    · simp only [ParseURL, hq, hf]
    · cases hqu : QueryUnescape (rawUrl.drop (i + 1)) <;>
        simp only [ParseURL, hq, hqu, hf]

/-- Witness for C3 on the raw target `"/hi?a%20b"`. -/
theorem parseURL_query_split_witness :
    strIndex "/hi?a%20b".toList ['?'] = some 3 ∧
    QueryUnescape ("/hi?a%20b".toList.drop 4) = some "a b".toList ∧
    PathUnescape ("/hi?a%20b".toList.take 3) = some "/hi".toList ∧
    ∃ uri hostname,
      ParseURL "/hi?a%20b".toList = some ⟨uri, hostname, "/hi".toList, "a b".toList⟩ :=
  ⟨by decide, by decide, by decide,
   (parseURL_query_split "/hi?a%20b".toList 3 (by decide)).1
     "a b".toList "/hi".toList (by decide) (by decide)⟩

/-- C4 counterexample: parsing the reconstruction of the valid target
(scheme `"gemini://"`, host `"localhost"`, path `"/hi"`, query `"a"`) does
not return the original target: the returned path is the percent-unescaped
whole prefix before the `'?'` — `"gemini://localhost/hi"` — not `"/hi"`. -/
theorem parse_encode_roundtrip_counterexample :
    ParseURL (encodeTarget "gemini://".toList "localhost".toList "/hi".toList ['a'])
      ≠ some ⟨"gemini://".toList, "localhost".toList, "/hi".toList, ['a']⟩ ∧
    ParseURL (encodeTarget "gemini://".toList "localhost".toList "/hi".toList ['a'])
      = some ⟨"gemini://".toList, "localhost".toList,
              "gemini://localhost/hi".toList, ['a']⟩ := by
  constructor
  · decide
  · decide

/-- C4 (amended): for a valid request target with scheme `sbase ++ "://"`,
host, path `'/' :: ptail` and decoded query (no percent-escapes or pluses
anywhere, no `'?'` or `'/'` where they would confuse the splits): with an
empty query the round trip is the identity, but with a non-empty query the
scheme, host and query are recovered while the returned path is the whole
reconstructed prefix `scheme ++ host ++ path` rather than the original
path. -/
theorem parse_encode_roundtrip_amended
    (sbase host ptail query : List Char)
    (hs1 : ':' ∉ sbase) (hs2 : '?' ∉ sbase) (hs3 : '%' ∉ sbase)
    (hh1 : '/' ∉ host) (hh2 : '?' ∉ host) (hh3 : '%' ∉ host)
    (hp1 : '?' ∉ ptail) (hp2 : '%' ∉ ptail)
    (hq1 : '%' ∉ query) (hq2 : '+' ∉ query) :
    (query = [] →
      ParseURL (encodeTarget (sbase ++ [':', '/', '/']) host ('/' :: ptail) []) =
        some ⟨sbase ++ [':', '/', '/'], host, '/' :: ptail, []⟩) ∧
    (query ≠ [] →
      ParseURL (encodeTarget (sbase ++ [':', '/', '/']) host ('/' :: ptail) query) =
        some ⟨sbase ++ [':', '/', '/'], host,
              sbase ++ [':', '/', '/'] ++ host ++ '/' :: ptail, query⟩) := by
  constructor
  · -- empty query: round trip is the identity
    intro hq0
    have hE : encodeTarget (sbase ++ [':', '/', '/']) host ('/' :: ptail) [] =
        sbase ++ (':' :: '/' :: '/' :: (host ++ '/' :: ptail)) := by
      simp [encodeTarget, List.append_assoc]
    have f1 : strIndex (sbase ++ (':' :: '/' :: '/' :: (host ++ '/' :: ptail)))
        [':', '/', '/'] = some sbase.length :=
      strIndex_append_head _ ':' ['/', '/'] (by simp [List.isPrefixOf]) sbase hs1
    have f2 : (sbase ++ (':' :: '/' :: '/' :: (host ++ '/' :: ptail))).take
        (sbase.length + 3) = sbase ++ [':', '/', '/'] := by
      rw [List.take_append]
      rfl
    have f3 : (sbase ++ (':' :: '/' :: '/' :: (host ++ '/' :: ptail))).drop
        (sbase.length + 3) = host ++ '/' :: ptail := by
      rw [List.drop_append]
      rfl
    have f4 : strIndex (host ++ '/' :: ptail) ['/'] = some host.length :=
      strIndex_append_head _ '/' [] (by simp [List.isPrefixOf]) host hh1
    have f6 : strIndex (sbase ++ (':' :: '/' :: '/' :: (host ++ '/' :: ptail)))
        ['?'] = none := by
      apply strIndex_single_notin
      simp only [List.mem_append, List.mem_cons]
      push_neg
      exact ⟨hs2, by decide, by decide, by decide, hh2, by decide, hp1⟩
    rw [hE]
    simp only [ParseURL, f1, f2, f3, f4, f6]
    rw [List.take_left, List.drop_left]
  · -- non-empty query: the path comes back with scheme and host prepended
    intro hqne
    have hE : encodeTarget (sbase ++ [':', '/', '/']) host ('/' :: ptail) query =
        sbase ++ (':' :: '/' :: '/' :: (host ++ '/' :: (ptail ++ '?' :: query))) := by
      simp [encodeTarget, hqne, List.append_assoc]
    have hNE2 : sbase ++ (':' :: '/' :: '/' :: (host ++ '/' :: (ptail ++ '?' :: query))) =
        (sbase ++ (':' :: '/' :: '/' :: (host ++ '/' :: ptail))) ++ '?' :: query := by
      simp [List.append_assoc]
    have f1 : strIndex (sbase ++ (':' :: '/' :: '/' :: (host ++ '/' :: (ptail ++ '?' :: query))))
        [':', '/', '/'] = some sbase.length :=
      strIndex_append_head _ ':' ['/', '/'] (by simp [List.isPrefixOf]) sbase hs1
    have f2 : (sbase ++ (':' :: '/' :: '/' :: (host ++ '/' :: (ptail ++ '?' :: query)))).take
        (sbase.length + 3) = sbase ++ [':', '/', '/'] := by
      rw [List.take_append]
      rfl
    have f3 : (sbase ++ (':' :: '/' :: '/' :: (host ++ '/' :: (ptail ++ '?' :: query)))).drop
        (sbase.length + 3) = host ++ '/' :: (ptail ++ '?' :: query) := by
      rw [List.drop_append]
      rfl
    have f4 : strIndex (host ++ '/' :: (ptail ++ '?' :: query)) ['/'] = some host.length :=
      strIndex_append_head _ '/' [] (by simp [List.isPrefixOf]) host hh1
    have f6 : strIndex (sbase ++ (':' :: '/' :: '/' :: (host ++ '/' :: (ptail ++ '?' :: query))))
        ['?'] = some (sbase ++ (':' :: '/' :: '/' :: (host ++ '/' :: ptail))).length := by
      rw [hNE2]
      apply strIndex_append_head _ '?' [] (by simp [List.isPrefixOf])
      simp only [List.mem_append, List.mem_cons]
      push_neg
      exact ⟨hs2, by decide, by decide, by decide, hh2, by decide, hp1⟩
    have f7 : (sbase ++ (':' :: '/' :: '/' :: (host ++ '/' :: (ptail ++ '?' :: query)))).drop
        ((sbase ++ (':' :: '/' :: '/' :: (host ++ '/' :: ptail))).length + 1) = query := by
      rw [hNE2, List.drop_append]
      rfl
    have f8 : (sbase ++ (':' :: '/' :: '/' :: (host ++ '/' :: (ptail ++ '?' :: query)))).take
        ((sbase ++ (':' :: '/' :: '/' :: (host ++ '/' :: ptail))).length) = 
        sbase ++ (':' :: '/' :: '/' :: (host ++ '/' :: ptail)) := by
      rw [hNE2, List.take_left]
    have f9 : QueryUnescape query = some query := queryUnescape_id query hq1 hq2
    have f10 : PathUnescape (sbase ++ (':' :: '/' :: '/' :: (host ++ '/' :: ptail))) =
        some (sbase ++ (':' :: '/' :: '/' :: (host ++ '/' :: ptail))) := by
      apply pathUnescape_id
      simp only [List.mem_append, List.mem_cons]
      push_neg
      exact ⟨hs3, by decide, by decide, by decide, hh3, by decide, hp2⟩
    rw [hE]
    simp only [ParseURL, f1, f2, f3, f4, f6, f7, f8, f9, f10]
    rw [List.take_left]
    simp [List.append_assoc]

/-- Witness for C4 (amended): scheme `"gemini://"`, host `"localhost"`,
path `"/hi"`; identity round trip with the empty query, and the
scheme-and-host-prefixed path with query `"a"`. -/
theorem parse_encode_roundtrip_amended_witness :
    ParseURL (encodeTarget ("gemini".toList ++ [':', '/', '/']) "localhost".toList
        ('/' :: "hi".toList) []) =
      some ⟨"gemini".toList ++ [':', '/', '/'], "localhost".toList,
            '/' :: "hi".toList, []⟩ ∧
    ParseURL (encodeTarget ("gemini".toList ++ [':', '/', '/']) "localhost".toList
        ('/' :: "hi".toList) ['a']) =
      some ⟨"gemini".toList ++ [':', '/', '/'], "localhost".toList,
            "gemini".toList ++ [':', '/', '/'] ++ "localhost".toList ++ '/' :: "hi".toList,
            ['a']⟩ :=
  ⟨(parse_encode_roundtrip_amended "gemini".toList "localhost".toList "hi".toList []
      (by decide) (by decide) (by decide) (by decide) (by decide) (by decide)
      (by decide) (by decide) (by decide) (by decide)).1 rfl,
   (parse_encode_roundtrip_amended "gemini".toList "localhost".toList "hi".toList ['a']
      (by decide) (by decide) (by decide) (by decide) (by decide) (by decide)
      (by decide) (by decide) (by decide) (by decide)).2 (by decide)⟩
